import Mathlib

/-!
Verification of the HTML-entities table extractor (`parser.py`).

The program is a single linear pipeline over text:
locate a table, extract `(entity name, glyph)` rows with a fixed regular
expression, normalize them into an ordered mapping, optionally filter by
printability, add a key prefix, and serialize to JSON or to an espanso
`package.yml` manifest.

Strings are embedded as `List Char`.  Python's insertion-ordered `dict`
is embedded as an association list with unique keys (`dictInsert`
updates in place, else appends).  The row-scanning regular expression

  `<td>\s*<code>([^<]+)</code>\s*<td>\s*[^<]+\s*<td>\s*<span[^>]*>([^<]+)</span>`

is deterministic (every repeated class excludes the character that the
following literal starts with), so it is compiled into the explicit
matcher `matchRowAt` below; `findRowsAux` iterates it exactly like
`re.findall`: try at each position, continue after each match.
-/

/-- Whitespace characters: models the character set matched by Python's
regular-expression class `\s` and stripped by `str.strip` (for `str`
patterns both cover the ASCII whitespace plus the Unicode space
characters listed here). -/
def wsChars : List Char :=
  [' ', '\t', '\n', '\x0b', '\x0c', '\r', '\x1c', '\x1d', '\x1e', '\x1f',
   '\x85', '\xa0', '\u1680', '\u2000', '\u2001', '\u2002', '\u2003', '\u2004',
   '\u2005', '\u2006', '\u2007', '\u2008', '\u2009', '\u200a', '\u2028',
   '\u2029', '\u202f', '\u205f', '\u3000']

/-- Test whether a character is whitespace (Python `\s` / `str.strip`). -/
def isSpace (c : Char) : Bool := wsChars.contains c

/-- Python `str.strip()`: remove leading and trailing whitespace. -/
def pyStrip (s : List Char) : List Char :=
  ((s.dropWhile isSpace).reverse.dropWhile isSpace).reverse

/-- Regex `\s*`: drop the maximal leading run of whitespace. -/
def dropWs (s : List Char) : List Char := s.dropWhile isSpace

/-- Match a literal pattern at the head of the input, returning the rest. -/
def lit : List Char → List Char → Option (List Char)
  | [], s => some s
  | _ :: _, [] => none
  | p :: ps, c :: cs => if c = p then lit ps cs else none

/-- Regex `[^bad]+`: the maximal nonempty run of characters other than
`bad`, together with the rest of the input; fails on an empty run. -/
def take1Until (bad : Char) (s : List Char) : Option (List Char × List Char) :=
  let r := s.takeWhile (fun c => c != bad)
  if r = [] then none else some (r, s.dropWhile (fun c => c != bad))

/-- Literal `<td>` of the row pattern. -/
def tdOpen : List Char := ['<', 't', 'd', '>']

/-- Literal `<code>` of the row pattern. -/
def codeOpen : List Char := ['<', 'c', 'o', 'd', 'e', '>']

/-- Literal `</code>` of the row pattern. -/
def codeClose : List Char := ['<', '/', 'c', 'o', 'd', 'e', '>']

/-- Literal `<span` of the row pattern. -/
def spanOpen : List Char := ['<', 's', 'p', 'a', 'n']

/-- Literal `</span>` of the row pattern. -/
def spanClose : List Char := ['<', '/', 's', 'p', 'a', 'n', '>']

/-- Match the row regular expression of `parse_html_entities_table` at the
head of the input.  On success, return the two captured groups (entity
name, raw glyph) and the input remaining after the match. -/
def matchRowAt (s : List Char) : Option (List Char × List Char × List Char) :=
  (lit tdOpen s).bind fun s1 =>
  (lit codeOpen (dropWs s1)).bind fun s2 =>
  (take1Until '<' s2).bind fun p1 =>
  (lit codeClose p1.2).bind fun s3 =>
  (lit tdOpen (dropWs s3)).bind fun s4 =>
  (take1Until '<' s4).bind fun p2 =>
  (lit tdOpen p2.2).bind fun s5 =>
  (lit spanOpen (dropWs s5)).bind fun s6 =>
  (lit ['>'] (s6.dropWhile (fun c => c != '>'))).bind fun s7 =>
  (take1Until '<' s7).bind fun p3 =>
  (lit spanClose p3.2).map fun s8 => (p1.1, p3.1, s8)

/-- Iterate `matchRowAt` like `re.findall`: try a match at each position,
and continue scanning right after each successful match.  The fuel is the
input length; each step consumes at least one character, so the fuel
never runs out when started at `s.length`. -/
def findRowsAux : Nat → List Char → List (List Char × List Char)
  | 0, _ => []
  | _, [] => []
  | Nat.succ fuel, c :: cs =>
    match matchRowAt (c :: cs) with
    | some r => (r.1, r.2.1) :: findRowsAux fuel r.2.2
    | none => findRowsAux fuel cs

/-- All `(entity name, raw glyph)` pairs of the table text, in order:
the `re.findall` of the row pattern in `parse_html_entities_table`. -/
def findEntityRows (s : List Char) : List (List Char × List Char) :=
  findRowsAux s.length s

/-!
HTML character-reference decoding, modelled from Python's `html.unescape`
(the standard-library routine the normalizer calls on each glyph).
The named-reference table is restricted to the references that appear
escaped in glyph cells of the entities table (`amp`, `lt`, `gt`, `quot`,
`apos`, `nbsp`, with their legacy semicolon-free forms where the HTML5
table has them); numeric references follow the stdlib logic, including
the Windows-1252 remapping of `&#128;`–`&#159;`.
-/

/-- Characters allowed in a named character reference by the stdlib
pattern: everything except tab, newline, form feed, space, `<`, `&`,
`#` and `;`. -/
def isNameChar (c : Char) : Bool :=
  !(['\t', '\n', '\x0c', ' ', '<', '&', '#', ';'].contains c)

/-- Decimal digit test. -/
def isDecDigit (c : Char) : Bool :=
  decide ('0' ≤ c) && decide (c ≤ '9')

/-- Hexadecimal digit test. -/
def isHexDigit (c : Char) : Bool :=
  isDecDigit c || (decide ('a' ≤ c) && decide (c ≤ 'f'))
    || (decide ('A' ≤ c) && decide (c ≤ 'F'))

/-- Numeric value of a hexadecimal digit character. -/
def hexCharNat (c : Char) : Nat :=
  if isDecDigit c then c.toNat - 48
  else if decide ('a' ≤ c) && decide (c ≤ 'f') then c.toNat - 87
  else c.toNat - 55

/-- Value of a decimal digit string. -/
def decValue (ds : List Char) : Nat :=
  ds.foldl (fun a c => a * 10 + (c.toNat - 48)) 0

/-- Value of a hexadecimal digit string. -/
def hexValue (ds : List Char) : Nat :=
  ds.foldl (fun a c => a * 16 + hexCharNat c) 0

/-- Named character references (HTML5 table restricted to the references
relevant to the glyph cells; both the semicolon and the legacy forms). -/
def namedRefs : List (List Char × List Char) :=
  [ (['a', 'm', 'p', ';'], ['&']), (['a', 'm', 'p'], ['&']),
    (['l', 't', ';'], ['<']), (['l', 't'], ['<']),
    (['g', 't', ';'], ['>']), (['g', 't'], ['>']),
    (['q', 'u', 'o', 't', ';'], ['"']), (['q', 'u', 'o', 't'], ['"']),
    (['a', 'p', 'o', 's', ';'], ['\x27']),
    (['n', 'b', 's', 'p', ';'], ['\xa0']), (['n', 'b', 's', 'p'], ['\xa0']) ]

/-- Look up a (possibly semicolon-terminated) reference name. -/
def refLookup (s : List Char) : Option (List Char) :=
  (namedRefs.find? (fun p => p.1 == s)).map Prod.snd

/-- Longest-prefix lookup for legacy references: try prefixes of the
matched name from length `x` down to 2, as the stdlib replacement does. -/
def longestPrefixRefAux (matched : List Char) : Nat → Option (List Char × List Char)
  | 0 => none
  | 1 => none
  | Nat.succ (Nat.succ k) =>
    match refLookup (matched.take (k + 2)) with
    | some r => some (r, matched.drop (k + 2))
    | none => longestPrefixRefAux matched (k + 1)

/-- Longest legacy-prefix lookup starting at length `matched.length - 1`. -/
def longestPrefixRef (matched : List Char) : Option (List Char × List Char) :=
  longestPrefixRefAux matched (matched.length - 1)

/-- The stdlib `_invalid_charrefs` map: numeric references remapped
specially (NUL, CR, and the Windows-1252 range 0x80 to 0x9F). -/
def invalidCharrefs : List (Nat × List Char) :=
  [ (0x00, ['�']), (0x0d, ['\x0d']), (0x80, ['€']),
    (0x81, ['\x81']), (0x82, ['‚']), (0x83, ['ƒ']),
    (0x84, ['„']), (0x85, ['…']), (0x86, ['†']),
    (0x87, ['‡']), (0x88, ['ˆ']), (0x89, ['‰']),
    (0x8a, ['Š']), (0x8b, ['‹']), (0x8c, ['Œ']),
    (0x8d, ['\x8d']), (0x8e, ['Ž']), (0x8f, ['\x8f']),
    (0x90, ['\x90']), (0x91, ['‘']), (0x92, ['’']),
    (0x93, ['“']), (0x94, ['”']), (0x95, ['•']),
    (0x96, ['–']), (0x97, ['—']), (0x98, ['˜']),
    (0x99, ['™']), (0x9a, ['š']), (0x9b, ['›']),
    (0x9c, ['œ']), (0x9d, ['\x9d']), (0x9e, ['ž']),
    (0x9f, ['Ÿ']) ]

/-- Membership of `n` in a list of closed ranges. -/
def inRanges (n : Nat) (rs : List (Nat × Nat)) : Bool :=
  rs.any (fun r => decide (r.1 ≤ n) && decide (n ≤ r.2))

/-- The stdlib `_invalid_codepoints` set: control characters and
noncharacters whose numeric reference decodes to the empty string. -/
def isInvalidCodepoint (n : Nat) : Bool :=
  inRanges n [(0x1, 0x8), (0xb, 0xb), (0xe, 0x1f), (0x7f, 0x9f), (0xfdd0, 0xfdef)]
    || decide (n % 0x10000 = 0xfffe) || decide (n % 0x10000 = 0xffff)

/-- Replacement text of a numeric character reference, as in the stdlib:
special map first, then U+FFFD for surrogates and out-of-range values,
then the empty string for invalid code points, else the code point. -/
def numCharref (num : Nat) : List Char :=
  match invalidCharrefs.find? (fun p => p.1 == num) with
  | some p => p.2
  | none =>
    if (0xd800 ≤ num ∧ num ≤ 0xdfff) ∨ 0x10ffff < num then ['�']
    else if isInvalidCodepoint num then []
    else [Char.ofNat num]

/-- Attempt to read one character reference immediately after a `&`.
Returns the replacement text and the input remaining after the matched
reference; `none` when the stdlib pattern does not match here (the `&`
is then emitted unchanged and scanning resumes). -/
def tryCharref (s : List Char) : Option (List Char × List Char) :=
  match s with
  | [] => none
  | c :: rest =>
    if c = '#' then
      match rest with
      | [] => none
      | x :: rest2 =>
        if x = 'x' ∨ x = 'X' then
          let ds := rest2.takeWhile isHexDigit
          if ds = [] then none
          else
            let after := rest2.drop ds.length
            let after2 := if after.head? = some ';' then after.drop 1 else after
            some (numCharref (hexValue ds), after2)
        else
          let ds := rest.takeWhile isDecDigit
          if ds = [] then none
          else
            let after := rest.drop ds.length
            let after2 := if after.head? = some ';' then after.drop 1 else after
            some (numCharref (decValue ds), after2)
    else
      let nameRun := (s.takeWhile isNameChar).take 32
      if nameRun = [] then none
      else
        let after := s.drop nameRun.length
        let matched := if after.head? = some ';' then nameRun ++ [';'] else nameRun
        let after2 := if after.head? = some ';' then after.drop 1 else after
        match refLookup matched with
        | some repl => some (repl, after2)
        | none =>
          match longestPrefixRef matched with
          | some r => some (r.1 ++ r.2, after2)
          | none => some ('&' :: matched, after2)

/-- Scan the text, replacing each character reference after a `&`; the
fuel is the input length, and every reference consumes at least one
character beyond the `&`, so the fuel suffices. -/
def unescapeAux : Nat → List Char → List Char
  | 0, s => s
  | _, [] => []
  | Nat.succ fuel, c :: cs =>
    if c = '&' then
      match tryCharref cs with
      | some r => r.1 ++ unescapeAux fuel r.2
      | none => c :: unescapeAux fuel cs
    else c :: unescapeAux fuel cs

/-- Python `html.unescape`, over the restricted reference table above. -/
def unescape (s : List Char) : List Char := unescapeAux s.length s

/-!
The ordered mapping (Python `dict`) and the pipeline stages.
-/

/-- Python `dict` assignment `d[k] = v` on an insertion-ordered mapping
with unique keys: update the value in place if the key is present,
otherwise append the new pair at the end. -/
def dictInsert : List (List Char × List Char) → List Char → List Char →
    List (List Char × List Char)
  | [], k, v => [(k, v)]
  | p :: ps, k, v => if p.1 = k then (p.1, v) :: ps else p :: dictInsert ps k v

/-- First value stored under a key, if any. -/
def lookupKey : List (List Char × List Char) → List Char → Option (List Char)
  | [], _ => none
  | p :: ps, k => if p.1 = k then some p.2 else lookupKey ps k

/-- The keys of a mapping, in order. -/
def keysOf (d : List (List Char × List Char)) : List (List Char) :=
  d.map Prod.fst

/-- One iteration of the normalizer loop of `parse_html_entities_table`:
strip the name, skip it unless it ends in `;`, unescape the glyph, and
store the pair. -/
def normStep (d : List (List Char × List Char)) (r : List Char × List Char) :
    List (List Char × List Char) :=
  let name := pyStrip r.1
  if name.getLast? = some ';' then dictInsert d name (unescape r.2) else d

/-- The normalizer loop over a row list. -/
def normalizeRows (rows : List (List Char × List Char)) :
    List (List Char × List Char) :=
  rows.foldl normStep []

/-- The function `parse_html_entities_table`: extract the raw rows of the
table text, then normalize them into the entity mapping. -/
def parse_html_entities_table (table_html : List Char) :
    List (List Char × List Char) :=
  normalizeRows (findEntityRows table_html)

/-- The function `entities_dict_to_espanso_package_dict`: the identity
dict comprehension over the entity mapping. -/
def entities_dict_to_espanso_package_dict
    (entities : List (List Char × List Char)) : List (List Char × List Char) :=
  entities.map (fun kv => (kv.1, kv.2))

/-- General category `Cc` (control). -/
def ccRanges : List (Nat × Nat) := [(0x00, 0x1f), (0x7f, 0x9f)]

/-- General category `Cf` (format), from the Unicode character database. -/
def cfRanges : List (Nat × Nat) :=
  [(0xad, 0xad), (0x600, 0x605), (0x61c, 0x61c), (0x6dd, 0x6dd),
   (0x70f, 0x70f), (0x890, 0x891), (0x8e2, 0x8e2), (0x180e, 0x180e),
   (0x200b, 0x200f), (0x202a, 0x202e), (0x2060, 0x2064), (0x2066, 0x206f),
   (0xfeff, 0xfeff), (0xfff9, 0xfffb), (0x110bd, 0x110bd), (0x110cd, 0x110cd),
   (0x13430, 0x1343f), (0x1bca0, 0x1bca3), (0x1d173, 0x1d17a),
   (0xe0001, 0xe0001), (0xe0020, 0xe007f)]

/-- General category `Cs` (surrogate). -/
def csRanges : List (Nat × Nat) := [(0xd800, 0xdfff)]

/-- General category `Co` (private use). -/
def coRanges : List (Nat × Nat) :=
  [(0xe000, 0xf8ff), (0xf0000, 0xffffd), (0x100000, 0x10fffd)]

/-- Modelled from the Unicode character database used by Python's
`unicodedata.category`: whether the category of the code point is one of
Cc, Cf, Cs, Co, Cn.  The unassigned category Cn is abbreviated here to
the permanently reserved noncharacters (the full unassigned set is the
database complement and never contains a character the table's glyph
cells can hold anyway). -/
def categoryNonPrintable (c : Char) : Bool :=
  inRanges c.toNat ccRanges || inRanges c.toNat cfRanges
    || inRanges c.toNat csRanges || inRanges c.toNat coRanges
    || inRanges c.toNat [(0xfdd0, 0xfdef)]
    || decide (c.toNat % 0x10000 = 0xfffe) || decide (c.toNat % 0x10000 = 0xffff)

/-- The function `is_printable`: a character is printable unless its
general category is Cc, Cf, Cs, Co or Cn, or it is a control code point
below 32 other than tab, line feed or carriage return. -/
def is_printable (c : Char) : Bool :=
  if categoryNonPrintable c then false
  else if c.toNat < 32 ∧ ¬(['\t', '\n', '\r'].contains c = true) then false
  else true

/-- Filter mode string constant. -/
def printableClass : String := "printable"

/-- Filter mode string constant. -/
def unprintableClass : String := "unprintable"

/-- Output format string constant. -/
def fmtJson : String := "json"

/-- Output format string constant. -/
def fmtEspanso : String := "espanso"

/-- The function `filter_entities_by_class`: keep the entries whose glyph
is all-printable (`printable`), the entries with at least one
non-printable character (`unprintable`), or everything otherwise. -/
def filter_entities_by_class (entities : List (List Char × List Char))
    (filter_class : String) : List (List Char × List Char) :=
  if filter_class = printableClass then
    entities.filter (fun kv => kv.2.all is_printable)
  else if filter_class = unprintableClass then
    entities.filter (fun kv => kv.2.any (fun c => !is_printable c))
  else entities

/-- The function `prefix_dict_keys`: prepend `pfx` to every key. -/
def prefix_dict_keys (d : List (List Char × List Char)) (pfx : List Char) :
    List (List Char × List Char) :=
  d.map (fun kv => (pfx ++ kv.1, kv.2))

/-!
Serialization.  `jsonEncodeString` is Python `json.dumps` on a single
string with `ensure_ascii=False`: it escapes the quote, the backslash
and the control characters below 32 (named escapes for backspace, tab,
newline, form feed and carriage return, `\u00XX` otherwise) and emits
every other character literally.  `jsonDumpsIndent2` is `json.dumps` on
a string-to-string dict with `indent=2, ensure_ascii=False`.
-/

/-- Hexadecimal digit character (lowercase), as `%04x` formatting uses. -/
def hexDigitChar (n : Nat) : Char :=
  if n < 10 then Char.ofNat (48 + n) else Char.ofNat (87 + n)

/-- Escape a single character as inside a JSON string literal. -/
def escapeJsonChar (c : Char) : List Char :=
  if c = '"' then ['\\', '"']
  else if c = '\\' then ['\\', '\\']
  else if c = '\x08' then ['\\', 'b']
  else if c = '\t' then ['\\', 't']
  else if c = '\n' then ['\\', 'n']
  else if c = '\x0c' then ['\\', 'f']
  else if c = '\r' then ['\\', 'r']
  else if c.toNat < 32 then
    ['\\', 'u', '0', '0', hexDigitChar (c.toNat / 16), hexDigitChar (c.toNat % 16)]
  else [c]

/-- Body of a JSON string literal: every character escaped. -/
def escBody : List Char → List Char
  | [] => []
  | c :: cs => escapeJsonChar c ++ escBody cs

/-- Python `json.dumps` of one string with `ensure_ascii=False`. -/
def jsonEncodeString (s : List Char) : List Char :=
  '"' :: (escBody s ++ ['"'])

/-- Python `str.join` over a list of pieces. -/
def joinSep (sep : List Char) : List (List Char) → List Char
  | [] => []
  | [x] => x
  | x :: y :: xs => x ++ sep ++ joinSep sep (y :: xs)

/-- Python `json.dumps` of a string-to-string dict with `indent=2` and
`ensure_ascii=False`: the empty object, or the entries each on its own
two-space-indented line. -/
def jsonDumpsIndent2 (d : List (List Char × List Char)) : List Char :=
  if d = [] then ['\x7b', '\x7d']
  else
    ['\x7b', '\n', ' ', ' ']
      ++ joinSep [',', '\n', ' ', ' ']
        (d.map (fun kv => jsonEncodeString kv.1 ++ [':', ' '] ++ jsonEncodeString kv.2))
      ++ ['\n', '\x7d']

/-- Literal `matches:` header line. -/
def matchesHeader : List Char := ['m', 'a', 't', 'c', 'h', 'e', 's', ':']

/-- Literal `- trigger: ` line label. -/
def triggerLabel : List Char :=
  ['-', ' ', 't', 'r', 'i', 'g', 'g', 'e', 'r', ':', ' ']

/-- Literal `  replace: ` line label. -/
def replaceLabel : List Char :=
  [' ', ' ', 'r', 'e', 'p', 'l', 'a', 'c', 'e', ':', ' ']

/-- The two output lines per entry of the espanso manifest. -/
def espansoLines : List (List Char × List Char) → List (List Char)
  | [] => []
  | kv :: rest =>
    (triggerLabel ++ kv.1) :: (replaceLabel ++ jsonEncodeString kv.2)
      :: espansoLines rest

/-- The function `get_espanso_package_yml`: the `matches:` header then,
per entry, a raw trigger line and a JSON-quoted replace line, all joined
with newlines. -/
def get_espanso_package_yml (d : List (List Char × List Char)) : List Char :=
  joinSep ['\n'] (matchesHeader :: espansoLines d)

/-!
JSON string-literal decoding, modelled from Python `json.loads` (strict
scanner) on a single string literal: used to state the encode/decode
round trip of the `replace` field and of the JSON values.  Python would
accept a lone `\uXXXX` surrogate and keep it in the decoded text; a Lean
`Char` cannot hold one, so a lone surrogate is rejected here instead
(the encoder never produces one).
-/

/-- Numeric value of one hexadecimal digit, or `none`. -/
def hexCharVal (c : Char) : Option Nat :=
  if decide ('0' ≤ c) && decide (c ≤ '9') then some (c.toNat - 48)
  else if decide ('a' ≤ c) && decide (c ≤ 'f') then some (c.toNat - 87)
  else if decide ('A' ≤ c) && decide (c ≤ 'F') then some (c.toNat - 55)
  else none

/-- The two-character JSON escapes. -/
def simpleUnescape (c : Char) : Option Char :=
  if c = '"' then some '"'
  else if c = '\\' then some '\\'
  else if c = '/' then some '/'
  else if c = 'b' then some '\x08'
  else if c = 'f' then some '\x0c'
  else if c = 'n' then some '\n'
  else if c = 'r' then some '\r'
  else if c = 't' then some '\t'
  else none

/-- Read one escape sequence after a backslash: the named escapes, or
`uXXXX` (with a following low surrogate when `XXXX` is a high one; a
lone surrogate is rejected, see above). -/
def readEscape : List Char → Option (Char × List Char)
  | [] => none
  | e :: rest2 =>
    if e = 'u' then
      match rest2 with
      | h1 :: h2 :: h3 :: h4 :: rest3 =>
        match hexCharVal h1, hexCharVal h2, hexCharVal h3, hexCharVal h4 with
        | some a, some b, some c2, some d =>
          let n := a * 4096 + b * 256 + c2 * 16 + d
          if n < 0xd800 ∨ (0xe000 ≤ n ∧ n ≤ 0x10ffff) then some (Char.ofNat n, rest3)
          else if n ≤ 0xdbff then
            match rest3 with
            | b1 :: b2 :: k1 :: k2 :: k3 :: k4 :: rest4 =>
              if b1 = '\\' ∧ b2 = 'u' then
                match hexCharVal k1, hexCharVal k2, hexCharVal k3, hexCharVal k4 with
                | some a2, some b3, some c3, some d3 =>
                  let n2 := a2 * 4096 + b3 * 256 + c3 * 16 + d3
                  if 0xdc00 ≤ n2 ∧ n2 ≤ 0xdfff then
                    some (Char.ofNat (0x10000 + (n - 0xd800) * 0x400 + (n2 - 0xdc00)), rest4)
                  else none
                | _, _, _, _ => none
              else none
            | _ => none
          else none
        | _, _, _, _ => none
      | _ => none
    else (simpleUnescape e).map (fun ch => (ch, rest2))

/-- Decode the body of a JSON string literal (after the opening quote):
the decoded characters and the input after the closing quote.  Every
step consumes at least one character, so fuel equal to the input length
never runs out. -/
def decBodyAux : Nat → List Char → Option (List Char × List Char)
  | 0, _ => none
  | Nat.succ fuel, s =>
    match s with
    | [] => none
    | c :: rest =>
      if c = '"' then some ([], rest)
      else if c = '\\' then
        match readEscape rest with
        | some er =>
          match decBodyAux fuel er.2 with
          | some pr => some (er.1 :: pr.1, pr.2)
          | none => none
        | none => none
      else if c.toNat < 32 then none
      else
        match decBodyAux fuel rest with
        | some pr => some (c :: pr.1, pr.2)
        | none => none

/-- Decode a complete JSON string literal standing alone. -/
def jsonDecodeString (s : List Char) : Option (List Char) :=
  match s with
  | c :: rest =>
    if c = '"' then
      match decBodyAux s.length rest with
      | some pr => if pr.2 = [] then some pr.1 else none
      | none => none
    else none
  | [] => none

/-- Error message of the zero-entities fatal check in `main`. -/
def errNoEntities : String := "No entities found in the table."

/-- Error message of the unsupported-format branch in `main`. -/
def errUnsupported : String := "Unsupported format"

/-- The `main` pipeline after the locator (lines 196 to 217 of
`parser.py`): fatal if the parsed mapping is empty, then the optional
filter, the key prefix, and the chosen serializer. -/
def runPipeline (table_html : List Char) (pfx : List Char) (fmt : String)
    (filt : Option String) : Except String (List Char) :=
  let entities := parse_html_entities_table table_html
  if entities = [] then Except.error errNoEntities
  else
    let entities2 :=
      match filt with
      | some fc => filter_entities_by_class entities fc
      | none => entities
    let prefixed := prefix_dict_keys entities2 pfx
    if fmt = fmtJson then Except.ok (jsonDumpsIndent2 prefixed)
    else if fmt = fmtEspanso then Except.ok (get_espanso_package_yml prefixed)
    else Except.error errUnsupported

/-- The mapping that reaches the serializer: parse, optional filter,
key prefix (the data path of `runPipeline`). -/
def pipelineMapping (table_html : List Char) (pfx : List Char)
    (filt : Option String) : List (List Char × List Char) :=
  prefix_dict_keys
    (match filt with
     | some fc => filter_entities_by_class (parse_html_entities_table table_html) fc
     | none => parse_html_entities_table table_html) pfx

/-!
Derived notions and concrete inputs used in the statements below.
-/

/-- The stripped names of the rows that pass the normalizer's
semicolon check, in row order (the "valid rows" of the spec). -/
def validNames (rows : List (List Char × List Char)) : List (List Char) :=
  (rows.map (fun r => pyStrip r.1)).filter (fun n => decide (n.getLast? = some ';'))

/-- A table row of the expected three-cell shape with entity name `n`,
second (ignored) cell content `m`, and glyph cell `g`. -/
def rowStr (n m g : List Char) : List Char :=
  tdOpen ++ codeOpen ++ n ++ codeClose ++ tdOpen ++ m ++ tdOpen
    ++ spanOpen ++ '>' :: (g ++ spanClose)

/-- The entity name `&amp;` as raw characters. -/
def ampName : List Char := ['&', 'a', 'm', 'p', ';']

/-- A one-row table: name cell `&amp;`, glyph cell the escaped `&amp;`,
which unescapes to the glyph `&`. -/
def ampTable : String := "<td><code>&amp;</code><td>x<td><span>&amp;</span>"

/-- Scenario C expected output. -/
def c1Expected : String := "matches:\n- trigger: :&amp;\n  replace: \"&\""

/-- Scenario D output as the claim spells it (one line, no indent). -/
def c7Claimed : String := "\x7b\"&amp;\": \"&\"\x7d"

/-- Scenario D output as the code produces it (`indent=2`). -/
def c7Actual : String := "\x7b\n  \"&amp;\": \"&\"\n\x7d"

/-- A one-row table whose entity name does not begin with `&`. -/
def xTable : String := "<td><code>x;</code><td>y<td><span>z</span>"

/-- A two-row table with a duplicated entity name. -/
def dupTable : String :=
  "<td><code>&a;</code><td>x<td><span>b</span><td><code>&a;</code><td>x<td><span>c</span>"

/-- A one-row table whose second cell is empty. -/
def emptyMidTable : String := "<td><code>&amp;</code><td><td><span>&</span>"

/-- A one-row table whose glyph is the control character U+0001. -/
def ctrlTable : String := "<td><code>&a;</code><td>x<td><span>\x01</span>"

/-- A mapping with a single empty-glyph entry. -/
def emptyGlyphMap : List (List Char × List Char) := [(['k', ';'], [])]

/-- A one-entry mapping for the prefix-composition counterexample. -/
def oneKeyMap : List (List Char × List Char) := [(['k'], ['v'])]

/-- A glyph containing a backslash, a double quote and a character above
the Basic Latin range. -/
def c8Glyph : List Char := ['\\', '"', 'é']

/-!
Helper lemmas about the mapping operations.
-/

theorem lookupKey_dictInsert (d : List (List Char × List Char)) (k v : List Char) :
    lookupKey (dictInsert d k v) k = some v := by
  induction d with
  | nil => simp [dictInsert, lookupKey]
  | cons p ps ih =>
    by_cases h : p.1 = k
    · simp [dictInsert, h, lookupKey]
    · simp [dictInsert, h, lookupKey, ih]

theorem mem_keysOf_dictInsert (d : List (List Char × List Char)) (k v k2 : List Char)
    (h : k2 ∈ keysOf (dictInsert d k v)) : k2 ∈ keysOf d ∨ k2 = k := by
  induction d with
  | nil => simpa [dictInsert, keysOf] using h
  | cons p ps ih =>
    by_cases hp : p.1 = k
    · rw [dictInsert, if_pos hp] at h
      simp only [keysOf, List.map_cons, List.mem_cons] at h ⊢
      rcases h with h | h
      · exact Or.inl (Or.inl h)
      · exact Or.inl (Or.inr h)
    · rw [dictInsert, if_neg hp] at h
      simp only [keysOf, List.map_cons, List.mem_cons] at h ⊢
      rcases h with h | h
      · exact Or.inl (Or.inl h)
      · rcases ih h with h2 | h2
        · exact Or.inl (Or.inr h2)
        · exact Or.inr h2

theorem keysOf_dictInsert_not_mem (d : List (List Char × List Char)) (k v : List Char)
    (h : k ∉ keysOf d) : keysOf (dictInsert d k v) = keysOf d ++ [k] := by
  induction d with
  | nil => simp [dictInsert, keysOf]
  | cons p ps ih =>
    simp only [keysOf, List.map_cons, List.mem_cons] at h
    push_neg at h
    rw [dictInsert, if_neg (fun hp => h.1 hp.symm)]
    simp only [keysOf, List.map_cons, List.cons_append, List.cons.injEq, true_and]
    exact ih h.2

theorem keysOf_dictInsert_mem (d : List (List Char × List Char)) (k v : List Char)
    (h : k ∈ keysOf d) : keysOf (dictInsert d k v) = keysOf d := by
  induction d with
  | nil => simp [keysOf] at h
  | cons p ps ih =>
    by_cases hp : p.1 = k
    · rw [dictInsert, if_pos hp]; simp [keysOf]
    · rw [dictInsert, if_neg hp]
      simp only [keysOf, List.map_cons, List.cons.injEq, true_and]
      simp only [keysOf, List.map_cons, List.mem_cons] at h
      rcases h with h | h
      · exact absurd h.symm hp
      · exact ih h

theorem length_eq_length_keysOf (d : List (List Char × List Char)) :
    d.length = (keysOf d).length := by
  simp [keysOf]

theorem validNames_cons (r : List Char × List Char)
    (rows : List (List Char × List Char)) :
    validNames (r :: rows) =
      if (pyStrip r.1).getLast? = some ';' then pyStrip r.1 :: validNames rows
      else validNames rows := by
  by_cases h : (pyStrip r.1).getLast? = some ';'
  · rw [if_pos h]
    simp [validNames, List.filter_cons, h]
  · rw [if_neg h]
    simp [validNames, List.filter_cons, h]

theorem foldl_normStep_length (rows : List (List Char × List Char)) :
    ∀ acc, (validNames rows).Nodup →
      (∀ n ∈ validNames rows, n ∉ keysOf acc) →
      (rows.foldl normStep acc).length = acc.length + (validNames rows).length := by
  induction rows with
  | nil => intro acc _ _; simp [validNames]
  | cons r rest ih =>
    intro acc hnd hdisj
    rw [List.foldl_cons]
    by_cases h : (pyStrip r.1).getLast? = some ';'
    · rw [validNames_cons, if_pos h] at hnd hdisj ⊢
      have hstep : normStep acc r = dictInsert acc (pyStrip r.1) (unescape r.2) := by
        rw [normStep, if_pos h]
      have hknotin : pyStrip r.1 ∉ keysOf acc := hdisj _ (List.mem_cons_self _ _)
      have hlen : (dictInsert acc (pyStrip r.1) (unescape r.2)).length = acc.length + 1 := by
        rw [length_eq_length_keysOf, keysOf_dictInsert_not_mem _ _ _ hknotin]
        simp [length_eq_length_keysOf acc]
      have hdisj2 : ∀ n ∈ validNames rest,
          n ∉ keysOf (dictInsert acc (pyStrip r.1) (unescape r.2)) := by
        intro n hn hmem
        rcases mem_keysOf_dictInsert _ _ _ _ hmem with hin | heq
        · exact hdisj n (List.mem_cons_of_mem _ hn) hin
        · exact (List.nodup_cons.mp hnd).1 (heq ▸ hn)
      rw [hstep, ih _ (List.nodup_cons.mp hnd).2 hdisj2, hlen]
      simp [List.length_cons]
      omega
    · rw [validNames_cons, if_neg h] at hnd hdisj ⊢
      have hstep : normStep acc r = acc := by rw [normStep, if_neg h]
      rw [hstep]
      exact ih _ hnd hdisj

theorem keys_normalize_endswith (rows : List (List Char × List Char)) :
    ∀ acc, (∀ k ∈ keysOf acc, k.getLast? = some ';') →
      ∀ k ∈ keysOf (rows.foldl normStep acc), k.getLast? = some ';' := by
  induction rows with
  | nil => intro acc h k hk; exact h k hk
  | cons r rest ih =>
    intro acc h k hk
    rw [List.foldl_cons] at hk
    refine ih (normStep acc r) ?_ k hk
    intro k2 hk2
    by_cases hcond : (pyStrip r.1).getLast? = some ';'
    · rw [normStep, if_pos hcond] at hk2
      rcases mem_keysOf_dictInsert _ _ _ _ hk2 with hin | heq
      · exact h k2 hin
      · rw [heq]; exact hcond
    · rw [normStep, if_neg hcond] at hk2
      exact h k2 hk2

theorem mem_keysOf_prefix_dict_keys (d : List (List Char × List Char))
    (pfx k : List Char) :
    k ∈ keysOf (prefix_dict_keys d pfx) ↔ ∃ n ∈ keysOf d, k = pfx ++ n := by
  simp only [keysOf, prefix_dict_keys, List.map_map, List.mem_map, Function.comp]
  constructor
  · rintro ⟨kv, hkv, rfl⟩
    exact ⟨kv.1, ⟨kv, hkv, rfl⟩, rfl⟩
  · rintro ⟨n, ⟨kv, hkv, rfl⟩, rfl⟩
    exact ⟨kv, hkv, rfl⟩

theorem mem_keysOf_filter_entities (d : List (List Char × List Char))
    (fc : String) (k : List Char)
    (h : k ∈ keysOf (filter_entities_by_class d fc)) : k ∈ keysOf d := by
  rw [filter_entities_by_class] at h
  split_ifs at h with h1 h2
  · simp only [keysOf, List.mem_map] at h ⊢
    rcases h with ⟨kv, hkv, rfl⟩
    exact ⟨kv, (List.mem_filter.mp hkv).1, rfl⟩
  · simp only [keysOf, List.mem_map] at h ⊢
    rcases h with ⟨kv, hkv, rfl⟩
    exact ⟨kv, (List.mem_filter.mp hkv).1, rfl⟩
  · exact h

/-- C1: a table whose parsed mapping is the single entry mapping the
entity name `&amp;` to the glyph `&`, run with the default prefix `:` in
the espanso format, produces exactly the three-line manifest
`matches:`, `- trigger: :&amp;`, `  replace: "&"` (trigger raw, glyph
JSON-quoted). -/
theorem c1_single_row_espanso (t : List Char)
    (h : parse_html_entities_table t = [(ampName, ['&'])]) :
    runPipeline t [':'] fmtEspanso none = Except.ok c1Expected.data := by
  unfold runPipeline
  rw [h]
  rfl

theorem c1_single_row_espanso_witness :
    runPipeline ampTable.data [':'] fmtEspanso none = Except.ok c1Expected.data :=
  c1_single_row_espanso ampTable.data (by decide)

/-- C2 (amended): every key of the final output mapping is the prefix
concatenated with an original entity name that ends in `;`.  The claim's
further assertion that the original name always begins with `&` is
refuted by `c2_counterexample`: the extractor accepts any non-`<` text
inside the name cell. -/
theorem c2_keys_prefixed_semicolon (t pfx : List Char) (filt : Option String)
    (k : List Char) (hk : k ∈ keysOf (pipelineMapping t pfx filt)) :
    ∃ name, k = pfx ++ name ∧ name.getLast? = some ';' := by
  have hsemi : ∀ n ∈ keysOf (parse_html_entities_table t), n.getLast? = some ';' :=
    keys_normalize_endswith (findEntityRows t) [] (by simp [keysOf])
  cases filt with
  | none =>
    simp only [pipelineMapping] at hk
    rw [mem_keysOf_prefix_dict_keys] at hk
    rcases hk with ⟨n, hn, rfl⟩
    exact ⟨n, rfl, hsemi n hn⟩
  | some fc =>
    simp only [pipelineMapping] at hk
    rw [mem_keysOf_prefix_dict_keys] at hk
    rcases hk with ⟨n, hn, rfl⟩
    exact ⟨n, rfl, hsemi n (mem_keysOf_filter_entities _ _ _ hn)⟩

theorem c2_keys_prefixed_semicolon_witness :
    ∃ name, [':', '&', 'a', 'm', 'p', ';'] = [':'] ++ name ∧
      name.getLast? = some ';' :=
  c2_keys_prefixed_semicolon ampTable.data [':'] none
    [':', '&', 'a', 'm', 'p', ';'] (by decide)

/-- C2 counterexample: a table row whose name cell holds `x;` is
accepted, so the final output contains the key `:x;` whose original
entity name `x;` does not begin with `&`, contradicting the claim. -/
theorem c2_counterexample :
    keysOf (pipelineMapping xTable.data [':'] none) = [[':', 'x', ';']] ∧
    keysOf (parse_html_entities_table xTable.data) = [['x', ';']] ∧
    (['x', ';']).head? ≠ some '&' := by
  decide

/-- C3: inserting rows in order, the normalizer overwrites an existing
name's glyph, so whatever rows came before, a final row whose stripped
name is the valid name `k` leaves the mapping holding that row's
unescaped glyph under `k`: the later row wins. -/
theorem c3_later_row_wins (rows : List (List Char × List Char))
    (n g k : List Char) (hn : pyStrip n = k) (hk : k.getLast? = some ';') :
    lookupKey (normalizeRows (rows ++ [(n, g)])) k = some (unescape g) := by
  rw [normalizeRows, List.foldl_append, List.foldl_cons, List.foldl_nil]
  rw [normStep]
  simp only [hn]
  rw [if_pos hk]
  exact lookupKey_dictInsert _ _ _

theorem c3_later_row_wins_witness :
    lookupKey (normalizeRows [(['&', 'a', ';'], ['x']), (['&', 'a', ';'], ['y'])])
      ['&', 'a', ';'] = some (unescape ['y']) :=
  c3_later_row_wins [(['&', 'a', ';'], ['x'])] ['&', 'a', ';'] ['y']
    ['&', 'a', ';'] (by decide) (by decide)

/-- C4 (amended): the normalized mapping has exactly one entry per
distinct valid name; in particular, when the N valid rows (stripped
name ending in `;`) all carry distinct names, the mapping has exactly N
entries, and rows without the trailing `;` are never counted.  The
unconditional count claimed is refuted by `c4_counterexample`:
duplicated names collapse. -/
theorem c4_distinct_names_count (t : List Char)
    (h : (validNames (findEntityRows t)).Nodup) :
    (parse_html_entities_table t).length =
      (validNames (findEntityRows t)).length := by
  rw [parse_html_entities_table, normalizeRows]
  have := foldl_normStep_length (findEntityRows t) [] h (by simp [keysOf])
  simpa using this

theorem c4_distinct_names_count_witness :
    (parse_html_entities_table ampTable.data).length =
      (validNames (findEntityRows ampTable.data)).length :=
  c4_distinct_names_count ampTable.data (by decide)

/-- C4 counterexample: a table with two valid rows (N = 2, M = 0) whose
names coincide produces a mapping with 1 entry, not N. -/
theorem c4_counterexample :
    (validNames (findEntityRows dupTable.data)).length = 2 ∧
    (parse_html_entities_table dupTable.data).length = 1 := by
  decide

/-- C5: every entry of a mapping lands in the `printable`-filtered or
the `unprintable`-filtered sub-mapping; the two sub-mappings never share
an entry (so in particular their intersection is empty whenever no glyph
is the empty string); and an entry with an empty glyph is classified as
printable (its characters are vacuously all printable). -/
theorem c5_filter_partition (m : List (List Char × List Char)) :
    (∀ e ∈ m, e ∈ filter_entities_by_class m printableClass ∨
      e ∈ filter_entities_by_class m unprintableClass) ∧
    (∀ e, e ∈ filter_entities_by_class m printableClass →
      e ∈ filter_entities_by_class m unprintableClass → False) ∧
    (∀ e ∈ m, e.2 = [] → e ∈ filter_entities_by_class m printableClass) := by
  have hp : filter_entities_by_class m printableClass
      = m.filter (fun kv => kv.2.all is_printable) := by
    rw [filter_entities_by_class, if_pos rfl]
  have hu : filter_entities_by_class m unprintableClass
      = m.filter (fun kv => kv.2.any (fun c => !is_printable c)) := by
    rw [filter_entities_by_class, if_neg (by decide), if_pos rfl]
  refine ⟨?_, ?_, ?_⟩
  · intro e he
    by_cases hall : e.2.all is_printable
    · exact Or.inl (hp ▸ List.mem_filter.mpr ⟨he, hall⟩)
    · refine Or.inr (hu ▸ List.mem_filter.mpr ⟨he, ?_⟩)
      rw [List.all_eq_true] at hall
      push_neg at hall
      rcases hall with ⟨c, hc, hcp⟩
      rw [List.any_eq_true]
      exact ⟨c, hc, by simp [Bool.not_eq_true] at hcp ⊢; exact hcp⟩
  · intro e hep heu
    rw [hp, List.mem_filter] at hep
    rw [hu, List.mem_filter] at heu
    rw [List.all_eq_true] at hep
    rw [List.any_eq_true] at heu
    rcases heu.2 with ⟨c, hc, hcu⟩
    have := hep.2 c hc
    simp [this] at hcu
  · intro e he h2
    refine hp ▸ List.mem_filter.mpr ⟨he, ?_⟩
    rw [h2]
    rfl

theorem c5_filter_partition_witness :
    (['k', ';'], ([] : List Char)) ∈
      filter_entities_by_class emptyGlyphMap printableClass :=
  (c5_filter_partition emptyGlyphMap).2.2 (['k', ';'], []) (by decide) rfl

/-- C6 counterexample: with the one-entry mapping `oneKeyMap`, prefixing
with `a` then with `b` produces the key `bak`, while a single
application with the concatenation `a + b` produces `abk`; the two key
sets differ, refuting the claimed identity. -/
theorem c6_counterexample :
    ['b', 'a', 'k'] ∈ keysOf (prefix_dict_keys (prefix_dict_keys oneKeyMap ['a']) ['b']) ∧
    ['b', 'a', 'k'] ∉ keysOf (prefix_dict_keys oneKeyMap (['a'] ++ ['b'])) := by
  decide

/-- C6 (amended): applying the Key Transformer with `p1` and then with
`p2` equals a single application with the concatenation `p2 + p1` (the
second prefix ends up outermost), not `p1 + p2` as claimed. -/
theorem c6_prefix_compose (d : List (List Char × List Char)) (p1 p2 : List Char) :
    prefix_dict_keys (prefix_dict_keys d p1) p2 = prefix_dict_keys d (p2 ++ p1) := by
  simp [prefix_dict_keys, List.map_map, Function.comp, List.append_assoc]

/-- C7 counterexample: on the one-row `&amp;` table with empty prefix
and json format the program emits the two-space-indented multi-line
object, not the single-line `{"&amp;": "&"}` the claim spells out. -/
theorem c7_counterexample :
    runPipeline ampTable.data [] fmtJson none = Except.ok c7Actual.data ∧
    c7Actual.data ≠ c7Claimed.data := by
  constructor
  · rfl
  · decide

/-- C7 (amended): a table whose parsed mapping is the single entry
`&amp;` to `&`, run with empty prefix in json format, produces the
indented object with a newline after the brace, the entry on a
two-space-indented line, and a closing newline-brace; keys stay in
mapping order and non-ASCII characters are emitted literally. -/
theorem c7_single_row_json (t : List Char)
    (h : parse_html_entities_table t = [(ampName, ['&'])]) :
    runPipeline t [] fmtJson none = Except.ok c7Actual.data := by
  unfold runPipeline
  rw [h]
  rfl

theorem c7_single_row_json_witness :
    runPipeline ampTable.data [] fmtJson none = Except.ok c7Actual.data :=
  c7_single_row_json ampTable.data (by decide)

/-- C10: when the parsed mapping is non-empty but the filter removes
every entry, the run still succeeds: the zero-entities fatal check sees
only the unfiltered mapping, and the serializers emit the empty forms
(just the `matches:` header for espanso, `{}` for json). -/
theorem c10_empty_filter_succeeds (t : List Char) (fc : String) (pfx : List Char)
    (hne : parse_html_entities_table t ≠ [])
    (hemp : filter_entities_by_class (parse_html_entities_table t) fc = []) :
    runPipeline t pfx fmtEspanso (some fc) = Except.ok matchesHeader ∧
    runPipeline t pfx fmtJson (some fc) = Except.ok ['\x7b', '\x7d'] := by
  constructor <;>
  · unfold runPipeline
    simp only [if_neg hne, hemp]
    rfl

/-!
Lemmas for the JSON string encode/decode round trip.
-/

theorem hexCharVal_hexDigitChar (n : Nat) (h : n < 16) :
    hexCharVal (hexDigitChar n) = some n := by
  interval_cases n <;> decide

theorem readEscape_u00 (d1 d2 : Char) (a b : Nat) (rest : List Char)
    (hd1 : hexCharVal d1 = some a) (hd2 : hexCharVal d2 = some b)
    (hab : a * 16 + b < 0xd800) :
    readEscape ('u' :: '0' :: '0' :: d1 :: d2 :: rest) =
      some (Char.ofNat (a * 16 + b), rest) := by
  have h0 : hexCharVal '0' = some 0 := by decide
  simp [readEscape, h0, hd1, hd2, hab]

theorem readEscape_simple (e ch : Char) (rest : List Char)
    (he : e ≠ 'u') (hch : simpleUnescape e = some ch) :
    readEscape (e :: rest) = some (ch, rest) := by
  simp [readEscape, he, hch]

theorem decBodyAux_quote (fuel : Nat) (r : List Char) :
    decBodyAux (fuel + 1) ('"' :: r) = some ([], r) := by
  simp [decBodyAux]

theorem decBodyAux_esc (fuel : Nat) (rest cs r2 : List Char) (ch : Char)
    (rest2 : List Char) (hre : readEscape rest = some (ch, rest2))
    (hdec : decBodyAux fuel rest2 = some (cs, r2)) :
    decBodyAux (fuel + 1) ('\\' :: rest) = some (ch :: cs, r2) := by
  simp [decBodyAux, hre, hdec]

theorem decBodyAux_plain (fuel : Nat) (c : Char) (rest cs r2 : List Char)
    (h1 : c ≠ '"') (h2 : c ≠ '\\') (h3 : ¬ c.toNat < 32)
    (hdec : decBodyAux fuel rest = some (cs, r2)) :
    decBodyAux (fuel + 1) (c :: rest) = some (c :: cs, r2) := by
  simp [decBodyAux, h1, h2, h3, hdec]

theorem decBodyAux_escBody (s : List Char) : ∀ (fuel : Nat) (r : List Char),
    (escBody s).length < fuel →
    decBodyAux fuel (escBody s ++ '"' :: r) = some (s, r) := by
  induction s with
  | nil =>
    intro fuel r hf
    cases fuel with
    | zero => simp [escBody] at hf
    | succ f => simpa [escBody] using decBodyAux_quote f r
  | cons c cs ih =>
    intro fuel r hf
    rw [escBody, List.append_assoc]
    rw [escBody] at hf
    simp only [List.length_append] at hf
    by_cases h1 : c = '"'
    · subst h1
      have hesc : escapeJsonChar '"' = ['\\', '"'] := by decide
      rw [hesc] at hf ⊢
      simp only [List.length_cons, List.length_nil] at hf
      cases fuel with
      | zero => omega
      | succ f =>
        simp only [List.cons_append, List.nil_append]
        exact decBodyAux_esc f _ cs r '"' _
          (readEscape_simple '"' '"' _ (by decide) (by decide)) (ih f r (by omega))
    by_cases h2 : c = '\\'
    · subst h2
      have hesc : escapeJsonChar '\\' = ['\\', '\\'] := by decide
      rw [hesc] at hf ⊢
      simp only [List.length_cons, List.length_nil] at hf
      cases fuel with
      | zero => omega
      | succ f =>
        simp only [List.cons_append, List.nil_append]
        exact decBodyAux_esc f _ cs r '\\' _
          (readEscape_simple '\\' '\\' _ (by decide) (by decide)) (ih f r (by omega))
    by_cases h3 : c = '\x08'
    · subst h3
      have hesc : escapeJsonChar '\x08' = ['\\', 'b'] := by decide
      rw [hesc] at hf ⊢
      simp only [List.length_cons, List.length_nil] at hf
      cases fuel with
      | zero => omega
      | succ f =>
        simp only [List.cons_append, List.nil_append]
        exact decBodyAux_esc f _ cs r '\x08' _
          (readEscape_simple 'b' '\x08' _ (by decide) (by decide)) (ih f r (by omega))
    by_cases h4 : c = '\t'
    · subst h4
      have hesc : escapeJsonChar '\t' = ['\\', 't'] := by decide
      rw [hesc] at hf ⊢
      simp only [List.length_cons, List.length_nil] at hf
      cases fuel with
      | zero => omega
      | succ f =>
        simp only [List.cons_append, List.nil_append]
        exact decBodyAux_esc f _ cs r '\t' _
          (readEscape_simple 't' '\t' _ (by decide) (by decide)) (ih f r (by omega))
    by_cases h5 : c = '\n'
    · subst h5
      have hesc : escapeJsonChar '\n' = ['\\', 'n'] := by decide
      rw [hesc] at hf ⊢
      simp only [List.length_cons, List.length_nil] at hf
      cases fuel with
      | zero => omega
      | succ f =>
        simp only [List.cons_append, List.nil_append]
        exact decBodyAux_esc f _ cs r '\n' _
          (readEscape_simple 'n' '\n' _ (by decide) (by decide)) (ih f r (by omega))
    by_cases h6 : c = '\x0c'
    · subst h6
      have hesc : escapeJsonChar '\x0c' = ['\\', 'f'] := by decide
      rw [hesc] at hf ⊢
      simp only [List.length_cons, List.length_nil] at hf
      cases fuel with
      | zero => omega
      | succ f =>
        simp only [List.cons_append, List.nil_append]
        exact decBodyAux_esc f _ cs r '\x0c' _
          (readEscape_simple 'f' '\x0c' _ (by decide) (by decide)) (ih f r (by omega))
    by_cases h7 : c = '\r'
    · subst h7
      have hesc : escapeJsonChar '\r' = ['\\', 'r'] := by decide
      rw [hesc] at hf ⊢
      simp only [List.length_cons, List.length_nil] at hf
      cases fuel with
      | zero => omega
      | succ f =>
        simp only [List.cons_append, List.nil_append]
        exact decBodyAux_esc f _ cs r '\r' _
          (readEscape_simple 'r' '\r' _ (by decide) (by decide)) (ih f r (by omega))
    by_cases h8 : c.toNat < 32
    · have hesc : escapeJsonChar c =
          ['\\', 'u', '0', '0', hexDigitChar (c.toNat / 16), hexDigitChar (c.toNat % 16)] := by
        rw [escapeJsonChar, if_neg h1, if_neg h2, if_neg h3, if_neg h4, if_neg h5,
          if_neg h6, if_neg h7, if_pos h8]
      rw [hesc] at hf ⊢
      simp only [List.length_cons, List.length_nil] at hf
      cases fuel with
      | zero => omega
      | succ f =>
        simp only [List.cons_append, List.nil_append]
        have hre : readEscape
            ('u' :: '0' :: '0' :: hexDigitChar (c.toNat / 16)
              :: hexDigitChar (c.toNat % 16) :: (escBody cs ++ '"' :: r)) =
            some (Char.ofNat (c.toNat / 16 * 16 + c.toNat % 16), escBody cs ++ '"' :: r) :=
          readEscape_u00 _ _ _ _ _
            (hexCharVal_hexDigitChar _ (by omega)) (hexCharVal_hexDigitChar _ (by omega))
            (by omega)
        have hmod : c.toNat / 16 * 16 + c.toNat % 16 = c.toNat := by omega
        rw [hmod] at hre
        have := decBodyAux_esc f _ cs r (Char.ofNat c.toNat) _ hre (ih f r (by omega))
        rwa [Char.ofNat_toNat] at this
    · have hesc : escapeJsonChar c = [c] := by
        rw [escapeJsonChar, if_neg h1, if_neg h2, if_neg h3, if_neg h4, if_neg h5,
          if_neg h6, if_neg h7, if_neg h8]
      rw [hesc] at hf ⊢
      simp only [List.length_cons, List.length_nil] at hf
      cases fuel with
      | zero => omega
      | succ f =>
        simp only [List.cons_append, List.nil_append]
        exact decBodyAux_plain f c _ cs r h1 h2 h8 (ih f r (by omega))

/-- C8: a glyph containing a backslash, a double quote and a character
above the Basic Latin range, once serialized (both output formats quote
the glyph with the same JSON string encoder `jsonEncodeString`: it is
the JSON value in json format and the `replace` field in the espanso
manifest) and then JSON-decoded, comes back exactly. -/
theorem c8_roundtrip (s : List Char) (hb : '\\' ∈ s) (hq : '"' ∈ s)
    (ha : ∃ c ∈ s, 0x7f < c.toNat) :
    jsonDecodeString (jsonEncodeString s) = some s := by
  have hlen : ('"' :: (escBody s ++ ['"'])).length = (escBody s).length + 2 := by
    simp
  have hdec := decBodyAux_escBody s ((escBody s).length + 2) [] (by omega)
  rw [jsonEncodeString]
  simp only [jsonDecodeString, hlen]
  rw [if_pos trivial, hdec]
  rfl

theorem c8_roundtrip_witness :
    jsonDecodeString (jsonEncodeString c8Glyph) = some c8Glyph :=
  c8_roundtrip c8Glyph (by decide) (by decide) ⟨'é', by decide, by decide⟩

/-!
Lemmas for the row extractor.
-/

theorem lit_self_append (p s : List Char) : lit p (p ++ s) = some s := by
  induction p with
  | nil => rfl
  | cons a ps ih => simp [lit, ih]

theorem dropWs_cons_lt (xs : List Char) : dropWs ('<' :: xs) = '<' :: xs := by
  rw [dropWs, List.dropWhile_cons, if_neg]
  simp only [Bool.not_eq_true]
  decide

theorem takeWhile_append_stop (p : Char → Bool) (xs : List Char) (b : Char)
    (r : List Char) (hxs : ∀ c ∈ xs, p c = true) (hb : p b = false) :
    (xs ++ b :: r).takeWhile p = xs ∧ (xs ++ b :: r).dropWhile p = b :: r := by
  induction xs with
  | nil => simp [List.takeWhile_cons, List.dropWhile_cons, hb]
  | cons a as ih =>
    have ha : p a = true := hxs a (List.mem_cons_self a as)
    have hrec := ih (fun c hc => hxs c (List.mem_cons_of_mem a hc))
    simp [List.takeWhile_cons, List.dropWhile_cons, ha, hrec.1, hrec.2]

theorem take1Until_append (b : Char) (xs r : List Char) (hne : xs ≠ [])
    (hxs : ∀ c ∈ xs, c ≠ b) :
    take1Until b (xs ++ b :: r) = some (xs, b :: r) := by
  have h := takeWhile_append_stop (fun c => c != b) xs b r
    (fun c hc => by simpa using hxs c hc) (by simp)
  rw [take1Until]
  simp only [h.1, h.2]
  rw [if_neg hne]

theorem findRowsAux_nil (f : Nat) : findRowsAux f [] = [] := by
  cases f <;> rfl

theorem matchRowAt_rowStr (n m g : List Char)
    (hn : n ≠ []) (hnc : ∀ c ∈ n, c ≠ '<')
    (hm : m ≠ []) (hmc : ∀ c ∈ m, c ≠ '<')
    (hg : g ≠ []) (hgc : ∀ c ∈ g, c ≠ '<') :
    matchRowAt (rowStr n m g) = some (n, g, []) := by
  have hform : rowStr n m g =
      tdOpen ++ (codeOpen ++ (n ++ (codeClose ++ (tdOpen ++ (m ++ (tdOpen ++
        (spanOpen ++ ('>' :: (g ++ spanClose))))))))) := by
    simp [rowStr, List.append_assoc]
  rw [hform, matchRowAt, lit_self_append]
  simp only [Option.some_bind]
  have e2 : dropWs (codeOpen ++ (n ++ (codeClose ++ (tdOpen ++ (m ++ (tdOpen ++
      (spanOpen ++ ('>' :: (g ++ spanClose))))))))) =
      codeOpen ++ (n ++ (codeClose ++ (tdOpen ++ (m ++ (tdOpen ++
      (spanOpen ++ ('>' :: (g ++ spanClose)))))))) :=
    dropWs_cons_lt _
  rw [e2, lit_self_append]
  simp only [Option.some_bind]
  have e3 : take1Until '<' (n ++ (codeClose ++ (tdOpen ++ (m ++ (tdOpen ++
      (spanOpen ++ ('>' :: (g ++ spanClose)))))))) =
      some (n, codeClose ++ (tdOpen ++ (m ++ (tdOpen ++
      (spanOpen ++ ('>' :: (g ++ spanClose))))))) :=
    take1Until_append '<' n (['/', 'c', 'o', 'd', 'e', '>'] ++ (tdOpen ++ (m ++ (tdOpen ++
      (spanOpen ++ ('>' :: (g ++ spanClose))))))) hn hnc
  rw [e3]
  simp only [Option.some_bind]
  rw [lit_self_append]
  simp only [Option.some_bind]
  have e4 : dropWs (tdOpen ++ (m ++ (tdOpen ++ (spanOpen ++ ('>' :: (g ++ spanClose)))))) =
      tdOpen ++ (m ++ (tdOpen ++ (spanOpen ++ ('>' :: (g ++ spanClose))))) :=
    dropWs_cons_lt _
  rw [e4, lit_self_append]
  simp only [Option.some_bind]
  have e5 : take1Until '<' (m ++ (tdOpen ++ (spanOpen ++ ('>' :: (g ++ spanClose))))) =
      some (m, tdOpen ++ (spanOpen ++ ('>' :: (g ++ spanClose)))) :=
    take1Until_append '<' m (['t', 'd', '>'] ++ (spanOpen ++ ('>' :: (g ++ spanClose)))) hm hmc
  rw [e5]
  simp only [Option.some_bind]
  rw [lit_self_append]
  simp only [Option.some_bind]
  have e6 : dropWs (spanOpen ++ ('>' :: (g ++ spanClose))) =
      spanOpen ++ ('>' :: (g ++ spanClose)) :=
    dropWs_cons_lt _
  rw [e6, lit_self_append]
  simp only [Option.some_bind]
  have e7 : ('>' :: (g ++ spanClose)).dropWhile (fun c => c != '>') =
      '>' :: (g ++ spanClose) := by
    rw [List.dropWhile_cons]
    simp
  rw [e7]
  have e8 : lit ['>'] ('>' :: (g ++ spanClose)) = some (g ++ spanClose) :=
    lit_self_append ['>'] (g ++ spanClose)
  rw [e8]
  simp only [Option.some_bind]
  have e9 : take1Until '<' (g ++ spanClose) = some (g, spanClose) :=
    take1Until_append '<' g ['/', 's', 'p', 'a', 'n', '>'] hg hgc
  rw [e9]
  simp only [Option.some_bind]
  have e10 : lit spanClose spanClose = some [] := lit_self_append spanClose []
  rw [e10]
  rfl

/-- C9 (amended): for a row of the three-cell shape whose cells hold
runs of non-`<` characters, the extracted pair is `(name, glyph)`
whatever the second cell holds, provided the second cell is non-empty:
its content is otherwise ignored.  The claim's "including when it is
empty" is refuted by `c9_counterexample`: the row pattern requires at
least one character between the second and third `<td>`. -/
theorem c9_second_cell_independent (n m g : List Char)
    (hn : n ≠ []) (hnc : ∀ c ∈ n, c ≠ '<')
    (hmne : m ≠ []) (hmc : ∀ c ∈ m, c ≠ '<')
    (hg : g ≠ []) (hgc : ∀ c ∈ g, c ≠ '<') :
    findEntityRows (rowStr n m g) = [(n, g)] := by
  have hmatch := matchRowAt_rowStr n m g hn hnc hmne hmc hg hgc
  rw [findEntityRows]
  cases hrow : rowStr n m g with
  | nil =>
    rw [hrow] at hmatch
    simp [matchRowAt, tdOpen, lit] at hmatch
  | cons c cs =>
    rw [hrow] at hmatch
    rw [List.length_cons]
    simp only [findRowsAux]
    rw [hmatch]
    simp [findRowsAux_nil]

theorem c9_second_cell_independent_witness :
    findEntityRows (rowStr ampName ['x'] ['&']) = [(ampName, ['&'])] :=
  c9_second_cell_independent ampName ['x'] ['&'] (by decide) (by decide)
    (by decide) (by decide) (by decide) (by decide)

/-- C9 counterexample: two rows identical except for the second cell,
holding `x` in one and nothing in the other; the first is extracted and
the second is not, so extraction does depend on the second cell's
content: a row with an empty second cell is dropped. -/
theorem c9_counterexample :
    findEntityRows (rowStr ampName ['x'] ['&']) = [(ampName, ['&'])] ∧
    findEntityRows (rowStr ampName [] ['&']) = [] := by
  decide

theorem c10_empty_filter_succeeds_witness :
    runPipeline ctrlTable.data [':'] fmtEspanso (some printableClass) =
      Except.ok matchesHeader ∧
    runPipeline ctrlTable.data [':'] fmtJson (some printableClass) =
      Except.ok ['\x7b', '\x7d'] :=
  c10_empty_filter_succeeds ctrlTable.data printableClass [':']
    (by decide) (by decide)
